import Mathlib

/-!
Verification of the EIP-2930 (access-list) transaction codec of the
`alloy` consensus crate (`crates/consensus/src/transaction/eip2930.rs`).

Bytes are modelled as `List Nat` with every element below 256; machine
integers (`u64`, `u128`, `U256`) are `Nat` with explicit bounds where they
matter.  The RLP primitive codec, the `Signature`/`Parity` type, the
`AccessList` type and the typed-transaction envelope live in sibling crates
of the repository and are modelled from the specification; the
transaction-level functions are translated directly from the source file.
The opaque `keccak256` hash is a function parameter throughout.
-/

set_option linter.unusedVariables false
set_option maxRecDepth 4000

/-! ## Big-endian byte strings -/

/-- Fuel-driven big-endian minimal byte representation (the fuel makes the
definition structurally recursive so that it reduces inside the kernel). -/
def beBytesAux : Nat → Nat → List Nat
  | 0, _ => []
  | f + 1, n => if n = 0 then [] else beBytesAux f (n / 256) ++ [n % 256]

/-- Minimal big-endian byte representation of a natural number; zero is the
empty string. -/
def beBytes (n : Nat) : List Nat :=
  beBytesAux n n

/-- Number of bytes in the minimal big-endian representation. -/
def byteLength (n : Nat) : Nat :=
  (beBytes n).length

/-- Value of a big-endian byte string. -/
def beValue (bs : List Nat) : Nat :=
  bs.foldl (fun a b => a * 256 + b) 0

theorem beBytesAux_congr : ∀ f g n, n ≤ f → n ≤ g → beBytesAux f n = beBytesAux g n := by
  intro f
  induction f with
  | zero =>
    intro g n hf hg
    interval_cases n
    cases g with
    | zero => rfl
    | succ g => simp [beBytesAux]
  | succ f ih =>
    intro g n hf hg
    cases g with
    | zero =>
      interval_cases n
      simp [beBytesAux]
    | succ g =>
      by_cases h0 : n = 0
      · simp [beBytesAux, h0]
      · have hn : 0 < n := Nat.pos_of_ne_zero h0
        have hdf : n / 256 ≤ f := by
          have := Nat.div_lt_self hn (by omega : 1 < 256)
          omega
        have hdg : n / 256 ≤ g := by
          have := Nat.div_lt_self hn (by omega : 1 < 256)
          omega
        simp only [beBytesAux, if_neg h0]
        rw [ih g (n / 256) hdf hdg]

theorem beBytes_zero : beBytes 0 = [] := rfl

theorem beBytes_pos (n : Nat) (h : 0 < n) :
    beBytes n = beBytes (n / 256) ++ [n % 256] := by
  cases n with
  | zero => omega
  | succ m =>
    show beBytesAux (m + 1) (m + 1) = beBytes ((m + 1) / 256) ++ [(m + 1) % 256]
    have hd : (m + 1) / 256 ≤ m := by
      have := Nat.div_lt_self (Nat.succ_pos m) (by omega : 1 < 256)
      omega
    simp only [beBytesAux, if_neg (Nat.succ_ne_zero m)]
    rw [beBytesAux_congr m ((m + 1) / 256) ((m + 1) / 256) hd (Nat.le_refl _)]
    rfl

theorem beValue_append_singleton (bs : List Nat) (b : Nat) :
    beValue (bs ++ [b]) = beValue bs * 256 + b := by
  simp [beValue, List.foldl_append]

theorem beValue_beBytes (n : Nat) : beValue (beBytes n) = n := by
  induction n using Nat.strong_induction_on with
  | _ n ih =>
    by_cases h0 : n = 0
    · subst h0; rfl
    · have hn : 0 < n := Nat.pos_of_ne_zero h0
      rw [beBytes_pos n hn, beValue_append_singleton,
        ih (n / 256) (Nat.div_lt_self hn (by omega))]
      omega

theorem beBytes_lt (n : Nat) : ∀ b ∈ beBytes n, b < 256 := by
  induction n using Nat.strong_induction_on with
  | _ n ih =>
    by_cases h0 : n = 0
    · subst h0; simp [beBytes_zero]
    · have hn : 0 < n := Nat.pos_of_ne_zero h0
      rw [beBytes_pos n hn]
      intro b hb
      rcases List.mem_append.mp hb with h | h
      · exact ih (n / 256) (Nat.div_lt_self hn (by omega)) b h
      · simp only [List.mem_singleton] at h
        subst h
        exact Nat.mod_lt _ (by omega)

theorem beBytes_head_pos (n : Nat) (h : 0 < n) :
    ∃ c cs, beBytes n = c :: cs ∧ 0 < c := by
  induction n using Nat.strong_induction_on with
  | _ n ih =>
    by_cases hsmall : n < 256
    · refine ⟨n, [], ?_, h⟩
      rw [beBytes_pos n h, Nat.div_eq_of_lt hsmall, beBytes_zero,
        Nat.mod_eq_of_lt hsmall]
      rfl
    · have hd : 0 < n / 256 := Nat.div_pos (by omega) (by omega)
      obtain ⟨c, cs, hc, hcpos⟩ := ih (n / 256) (Nat.div_lt_self h (by omega)) hd
      exact ⟨c, cs ++ [n % 256], by rw [beBytes_pos n h, hc]; rfl, hcpos⟩

theorem byteLength_zero : byteLength 0 = 0 := rfl

theorem byteLength_pos (n : Nat) (h : 0 < n) :
    byteLength n = byteLength (n / 256) + 1 := by
  unfold byteLength
  rw [beBytes_pos n h]
  simp

theorem byteLength_le (k : Nat) : ∀ n, n < 2 ^ (8 * k) → byteLength n ≤ k := by
  induction k with
  | zero =>
    intro n hn
    interval_cases n
    simp [byteLength_zero]
  | succ k ih =>
    intro n hn
    by_cases h0 : n = 0
    · subst h0; simp [byteLength_zero]
    · rw [byteLength_pos n (Nat.pos_of_ne_zero h0)]
      have hdiv : n / 256 < 2 ^ (8 * k) := by
        apply Nat.div_lt_of_lt_mul
        calc n < 2 ^ (8 * (k + 1)) := hn
        _ = 256 * 2 ^ (8 * k) := by ring
      exact Nat.add_le_add_right (ih (n / 256) hdiv) 1

theorem byteLength_pos_of_pos (n : Nat) (h : 0 < n) : 0 < byteLength n := by
  rw [byteLength_pos n h]
  omega

theorem beBytes_length (n : Nat) : (beBytes n).length = byteLength n := rfl

/-! ## RLP primitive codec (modelled from the spec) -/

/-- Modelled from the spec: the closed set of decode error kinds of the
error-handling design (section 7). -/
inductive RlpError where
  | MalformedHeader
  | InputTooShort
  | NonCanonicalInt
  | UnexpectedString
  | UnsupportedTransactionType
deriving DecidableEq

/-- Result-chaining combinator for the decoders (the `?` operator of the
source, written as an explicit match so that proofs reduce it freely). -/
def eb {α β : Type} (x : Except RlpError α) (f : α → Except RlpError β) :
    Except RlpError β :=
  match x with
  | .error e => .error e
  | .ok a => f a

theorem eb_ok {α β : Type} (a : α) (f : α → Except RlpError β) :
    eb (.ok a) f = f a := rfl

theorem eb_error {α β : Type} (e : RlpError) (f : α → Except RlpError β) :
    eb (.error e) f = .error e := rfl

instance {ε α : Type} [DecidableEq ε] [DecidableEq α] : DecidableEq (Except ε α) :=
  fun x y =>
    match x, y with
    | .error a, .error b =>
      if h : a = b then .isTrue (by rw [h])
      else .isFalse (fun hc => h (Except.error.inj hc))
    | .ok a, .ok b =>
      if h : a = b then .isTrue (by rw [h])
      else .isFalse (fun hc => h (Except.ok.inj hc))
    | .error a, .ok b => .isFalse (fun hc => Except.noConfusion hc)
    | .ok a, .error b => .isFalse (fun hc => Except.noConfusion hc)

/-- Modelled from the spec: RLP header bytes, `0x80`/`0xb7` based for byte
strings and `0xc0`/`0xf7` based for lists, with the big-endian length of the
payload length appended in the long form (section 4.1). -/
def rlpHeaderBytes (isList : Bool) (payloadLen : Nat) : List Nat :=
  let offset : Nat := if isList then 0xc0 else 0x80
  if payloadLen < 56 then [offset + payloadLen]
  else (offset + 0x37 + byteLength payloadLen) :: beBytes payloadLen

/-- Source `alloy_rlp::length_of_length`: the byte length of an RLP header
for a payload of the given length. -/
def length_of_length (payloadLen : Nat) : Nat :=
  if payloadLen < 56 then 1 else 1 + byteLength payloadLen

theorem rlpHeaderBytes_length (isList : Bool) (p : Nat) :
    (rlpHeaderBytes isList p).length = length_of_length p := by
  unfold rlpHeaderBytes length_of_length
  by_cases h : p < 56
  · simp [h]
  · simp [h, beBytes_length]
    omega

/-- Modelled from the spec: `encode_bytes` with the single-byte optimization
(section 4.1). -/
def encodeBytes (bs : List Nat) : List Nat :=
  if bs.length = 1 ∧ bs.headI < 0x80 then bs
  else rlpHeaderBytes false bs.length ++ bs

/-- Modelled from the spec: `encode_uint` emits the minimal big-endian bytes
as a byte string; values below `0x80` are a single verbatim byte and zero is
the empty string (header `0x80`).  The short header form is hard-wired, as in
the source codec where integer widths never exceed 32 bytes. -/
def encodeUint (v : Nat) : List Nat :=
  if v = 0 then [0x80]
  else if v ≤ 0x7f then [v]
  else (0x80 + byteLength v) :: beBytes v

/-- Length of the RLP encoding of an unsigned integer (source
`alloy_rlp::Encodable::length` for uint types). -/
def uintLength (v : Nat) : Nat :=
  if v ≤ 0x7f then 1 else 1 + byteLength v

/-- Length of the RLP encoding of a byte string. -/
def bytesLength (bs : List Nat) : Nat :=
  if bs.length = 1 ∧ bs.headI < 0x80 then 1
  else length_of_length bs.length + bs.length

theorem encodeUint_length (v : Nat) : (encodeUint v).length = uintLength v := by
  unfold encodeUint uintLength
  by_cases h0 : v = 0
  · simp [h0, byteLength_zero]
  · by_cases h1 : v ≤ 0x7f
    · simp [h0, h1]
    · simp [h0, h1, beBytes_length]
      omega

theorem encodeBytes_length (bs : List Nat) :
    (encodeBytes bs).length = bytesLength bs := by
  unfold encodeBytes bytesLength
  by_cases h : bs.length = 1 ∧ bs.headI < 0x80
  · simp [h]
  · simp [h, rlpHeaderBytes_length]

/-! ## RLP header decoding (modelled from the spec) -/

/-- Final length check of the header decoder: the declared payload must not
exceed the remaining buffer. -/
def headerCheckLen (isList : Bool) (p : Nat) (rest : List Nat) :
    Except RlpError (Bool × Nat × List Nat) :=
  if rest.length < p then .error .InputTooShort else .ok (isList, p, rest)

/-- Long-form header payload length: reads `lenOfLen` big-endian bytes,
rejecting a leading zero byte and a value that would have fit in the short
form (both non-canonical). -/
def headerLongForm (isList : Bool) (lenOfLen : Nat) (rest : List Nat) :
    Except RlpError (Bool × Nat × List Nat) :=
  if lenOfLen = 0 ∨ 8 < lenOfLen then .error .MalformedHeader
  else if rest.length < lenOfLen then .error .InputTooShort
  else
    let lenBytes := rest.take lenOfLen
    if lenBytes.headI = 0 then .error .MalformedHeader
    else
      let p := beValue lenBytes
      if p < 56 then .error .MalformedHeader
      else headerCheckLen isList p (rest.drop lenOfLen)

/-- Canonicality check of the `0x81` header: a one-byte payload below `0x80`
should have been encoded verbatim. -/
def headerSingleCanon (rest : List Nat) : Except RlpError (Bool × Nat × List Nat) :=
  match rest with
  | [] => .error .InputTooShort
  | c :: cs =>
    if c ≤ 0x7f then .error .MalformedHeader
    else headerCheckLen false 1 (c :: cs)

/-- Modelled from the spec: `decode_header` (section 4.1).  Returns the list
flag, the declared payload length and the buffer after the header; a single
byte below `0x80` is its own one-byte payload and consumes nothing. -/
def decodeHeader (buf : List Nat) : Except RlpError (Bool × Nat × List Nat) :=
  match buf with
  | [] => .error .InputTooShort
  | b :: rest =>
    if b ≤ 0x7f then .ok (false, 1, b :: rest)
    else if b ≤ 0xb7 then
      if b = 0x81 then headerSingleCanon rest
      else headerCheckLen false (b - 0x80) rest
    else if b ≤ 0xbf then headerLongForm false (b - 0xb7) rest
    else if b ≤ 0xf7 then headerCheckLen true (b - 0xc0) rest
    else headerLongForm true (b - 0xf7) rest

theorem headerCheckLen_ok {isList b : Bool} {p q : Nat} {rest out : List Nat}
    (h : headerCheckLen isList p rest = .ok (b, q, out)) :
    b = isList ∧ q = p ∧ out = rest ∧ p ≤ rest.length := by
  unfold headerCheckLen at h
  by_cases hlt : rest.length < p
  · rw [if_pos hlt] at h; cases h
  · rw [if_neg hlt] at h
    cases h
    exact ⟨rfl, rfl, rfl, by omega⟩

theorem headerLongForm_ok {isList b : Bool} {k q : Nat} {rest out : List Nat}
    (h : headerLongForm isList k rest = .ok (b, q, out)) :
    b = isList ∧ q ≤ out.length := by
  unfold headerLongForm at h
  by_cases h1 : k = 0 ∨ 8 < k
  · rw [if_pos h1] at h; cases h
  · rw [if_neg h1] at h
    by_cases h2 : rest.length < k
    · rw [if_pos h2] at h; cases h
    · rw [if_neg h2] at h
      simp only at h
      by_cases h3 : (rest.take k).headI = 0
      · rw [if_pos h3] at h; cases h
      · rw [if_neg h3] at h
        by_cases h4 : beValue (rest.take k) < 56
        · rw [if_pos h4] at h; cases h
        · rw [if_neg h4] at h
          obtain ⟨hb, hq, hout, hle⟩ := headerCheckLen_ok h
          subst hq; subst hout
          exact ⟨hb, hle⟩

/-- Post-condition of a successful header decode: the declared payload length
never exceeds the remaining buffer. -/
theorem decodeHeader_ok_le {buf out : List Nat} {isList : Bool} {p : Nat}
    (h : decodeHeader buf = .ok (isList, p, out)) : p ≤ out.length := by
  cases buf with
  | nil => simp [decodeHeader] at h
  | cons b rest =>
    simp only [decodeHeader] at h
    by_cases h1 : b ≤ 0x7f
    · rw [if_pos h1] at h
      cases h
      simp
    · rw [if_neg h1] at h
      by_cases h2 : b ≤ 0xb7
      · rw [if_pos h2] at h
        by_cases h3 : b = 0x81
        · rw [if_pos h3] at h
          cases rest with
          | nil => cases h
          | cons c cs =>
            simp only [headerSingleCanon] at h
            by_cases h4 : c ≤ 0x7f
            · rw [if_pos h4] at h; cases h
            · rw [if_neg h4] at h
              obtain ⟨_, hq, hout, hle⟩ := headerCheckLen_ok h
              subst hq; subst hout; exact hle
        · rw [if_neg h3] at h
          obtain ⟨_, hq, hout, hle⟩ := headerCheckLen_ok h
          subst hq; subst hout; exact hle
      · rw [if_neg h2] at h
        by_cases h3 : b ≤ 0xbf
        · rw [if_pos h3] at h
          exact (headerLongForm_ok h).2
        · rw [if_neg h3] at h
          by_cases h4 : b ≤ 0xf7
          · rw [if_pos h4] at h
            obtain ⟨_, hq, hout, hle⟩ := headerCheckLen_ok h
            subst hq; subst hout; exact hle
          · rw [if_neg h4] at h
            exact (headerLongForm_ok h).2

/-! ## Take/drop helpers -/

theorem take_len_append {α : Type} (xs ys : List α) :
    (xs ++ ys).take xs.length = xs := by
  simp [List.take_append_eq_append_take]

theorem drop_len_append {α : Type} (xs ys : List α) :
    (xs ++ ys).drop xs.length = ys := by
  simp [List.drop_append_eq_append_drop]

/-! ## Header decode round-trips -/

theorem decodeHeader_short (isList : Bool) (p : Nat) (rest : List Nat)
    (hp : p < 56) (hp1 : isList = true ∨ p ≠ 1) (hr : p ≤ rest.length) :
    decodeHeader (rlpHeaderBytes isList p ++ rest) = .ok (isList, p, rest) := by
  have hhead : rlpHeaderBytes isList p = [(if isList then 0xc0 else 0x80) + p] := by
    unfold rlpHeaderBytes
    rw [if_pos hp]
  rw [hhead]
  cases isList with
  | false =>
    have hp1' : p ≠ 1 := hp1.resolve_left (by simp)
    show decodeHeader ((0x80 + p) :: rest) = _
    simp only [decodeHeader]
    rw [if_neg (by omega : ¬0x80 + p ≤ 0x7f), if_pos (by omega : 0x80 + p ≤ 0xb7),
      if_neg (by omega : ¬0x80 + p = 0x81),
      show 0x80 + p - 0x80 = p from by omega]
    unfold headerCheckLen
    rw [if_neg (by omega)]
  | true =>
    show decodeHeader ((0xc0 + p) :: rest) = _
    simp only [decodeHeader]
    rw [if_neg (by omega : ¬0xc0 + p ≤ 0x7f), if_neg (by omega : ¬0xc0 + p ≤ 0xb7),
      if_neg (by omega : ¬0xc0 + p ≤ 0xbf), if_pos (by omega : 0xc0 + p ≤ 0xf7),
      show 0xc0 + p - 0xc0 = p from by omega]
    unfold headerCheckLen
    rw [if_neg (by omega)]

theorem decodeHeader_long (isList : Bool) (p : Nat) (rest : List Nat)
    (hp : 56 ≤ p) (hp64 : p < 2 ^ 64) (hr : p ≤ rest.length) :
    decodeHeader (rlpHeaderBytes isList p ++ rest) = .ok (isList, p, rest) := by
  have hk1 : 0 < byteLength p := byteLength_pos_of_pos p (by omega)
  have hk8 : byteLength p ≤ 8 := byteLength_le 8 p hp64
  have hhead : rlpHeaderBytes isList p
      = ((if isList then 0xc0 else 0x80) + 0x37 + byteLength p) :: beBytes p := by
    unfold rlpHeaderBytes
    rw [if_neg (by omega)]
  obtain ⟨c, cs, hc, hcpos⟩ := beBytes_head_pos p (by omega)
  have hlong : headerLongForm isList (byteLength p) (beBytes p ++ rest)
      = .ok (isList, p, rest) := by
    unfold headerLongForm
    rw [if_neg (by omega), if_neg (by rw [List.length_append, beBytes_length]; omega)]
    simp only
    rw [← beBytes_length, take_len_append, drop_len_append]
    rw [if_neg (by rw [hc]; simpa using (by omega : ¬c = 0)), beValue_beBytes,
      if_neg (by omega)]
    unfold headerCheckLen
    rw [if_neg (by omega)]
  rw [hhead]
  cases isList with
  | false =>
    show decodeHeader ((0x80 + 0x37 + byteLength p) :: (beBytes p ++ rest)) = _
    simp only [decodeHeader]
    rw [if_neg (by omega : ¬0x80 + 0x37 + byteLength p ≤ 0x7f),
      if_neg (by omega : ¬0x80 + 0x37 + byteLength p ≤ 0xb7),
      if_pos (by omega : 0x80 + 0x37 + byteLength p ≤ 0xbf)]
    rw [show 0x80 + 0x37 + byteLength p - 0xb7 = byteLength p by omega]
    exact hlong
  | true =>
    show decodeHeader ((0xc0 + 0x37 + byteLength p) :: (beBytes p ++ rest)) = _
    simp only [decodeHeader]
    rw [if_neg (by omega : ¬0xc0 + 0x37 + byteLength p ≤ 0x7f),
      if_neg (by omega : ¬0xc0 + 0x37 + byteLength p ≤ 0xb7),
      if_neg (by omega : ¬0xc0 + 0x37 + byteLength p ≤ 0xbf),
      if_neg (by omega : ¬0xc0 + 0x37 + byteLength p ≤ 0xf7)]
    rw [show 0xc0 + 0x37 + byteLength p - 0xf7 = byteLength p by omega]
    exact hlong

/-- List headers round-trip for any payload length below `2^64`. -/
theorem decodeHeader_list (p : Nat) (rest : List Nat)
    (hp64 : p < 2 ^ 64) (hr : p ≤ rest.length) :
    decodeHeader (rlpHeaderBytes true p ++ rest) = .ok (true, p, rest) := by
  by_cases hp : p < 56
  · exact decodeHeader_short true p rest hp (Or.inl rfl) hr
  · exact decodeHeader_long true p rest (by omega) hp64 hr

/-! ## Byte-string and integer decoding (modelled from the spec) -/

/-- Modelled from the spec: `decode_bytes` — a string header followed by the
payload bytes; a list header is `UnexpectedString` (section 4.1, 7). -/
def decodeBytes (buf : List Nat) : Except RlpError (List Nat × List Nat) :=
  eb (decodeHeader buf) fun h =>
    if h.1 then .error .UnexpectedString
    else .ok (h.2.2.take h.2.1, h.2.2.drop h.2.1)

/-- Modelled from the spec: `decode_uint` — a byte string interpreted as a
big-endian integer; a payload wider than `maxBytes` is malformed and a
leading zero byte is `NonCanonicalInt` (section 4.1, 7). -/
def decodeUint (maxBytes : Nat) (buf : List Nat) :
    Except RlpError (Nat × List Nat) :=
  eb (decodeHeader buf) fun h =>
    if h.1 then .error .UnexpectedString
    else if maxBytes < h.2.1 then .error .MalformedHeader
    else
      let bs := h.2.2.take h.2.1
      if bs.headI = 0 ∧ bs ≠ [] then .error .NonCanonicalInt
      else .ok (beValue bs, h.2.2.drop h.2.1)

theorem decodeBytes_encodeBytes (bs : List Nat) (rest : List Nat)
    (hwf : ∀ b ∈ bs, b < 256) (hlen : bs.length < 2 ^ 64) :
    decodeBytes (encodeBytes bs ++ rest) = .ok (bs, rest) := by
  unfold encodeBytes
  by_cases h1 : bs.length = 1 ∧ bs.headI < 0x80
  · rw [if_pos h1]
    obtain ⟨hl, hh⟩ := h1
    match bs, hl with
    | [b], _ =>
      simp only [List.headI] at hh
      unfold decodeBytes
      show eb (decodeHeader (b :: rest)) _ = _
      simp only [decodeHeader]
      rw [if_pos (by omega : b ≤ 0x7f)]
      rw [eb_ok]
      simp
  · rw [if_neg h1]
    rw [List.append_assoc]
    unfold decodeBytes
    by_cases hl1 : bs.length = 1
    · match bs, hl1 with
      | [b], _ =>
        have hb : 0x80 ≤ b := by
          by_contra hlt
          exact h1 ⟨rfl, by simpa [List.headI] using hlt⟩
        show eb (decodeHeader (rlpHeaderBytes false 1 ++ (b :: rest))) _ = _
        have hhd : rlpHeaderBytes false 1 = [0x81] := by decide
        rw [hhd]
        show eb (decodeHeader (0x81 :: b :: rest)) _ = _
        simp only [decodeHeader]
        rw [if_neg (by omega : ¬(0x81:Nat) ≤ 0x7f), if_pos (by omega : (0x81:Nat) ≤ 0xb7)]
        simp only [if_true, headerSingleCanon]
        rw [if_neg (by omega : ¬b ≤ 0x7f)]
        unfold headerCheckLen
        rw [if_neg (by simp), eb_ok]
        simp
    · by_cases h2 : bs.length < 56
      · rw [decodeHeader_short false bs.length (bs ++ rest) h2 (Or.inr hl1)
          (by simp), eb_ok]
        simp only [Bool.false_eq_true, if_false]
        rw [take_len_append, drop_len_append]
      · rw [decodeHeader_long false bs.length (bs ++ rest) (by omega) hlen (by simp),
          eb_ok]
        simp only [Bool.false_eq_true, if_false]
        rw [take_len_append, drop_len_append]

theorem decodeUint_encodeUint (m v : Nat) (rest : List Nat)
    (hm : byteLength v ≤ m) (hm56 : m ≤ 55) :
    decodeUint m (encodeUint v ++ rest) = .ok (v, rest) := by
  unfold encodeUint
  by_cases h0 : v = 0
  · subst h0
    simp only [if_pos rfl]
    unfold decodeUint
    show eb (decodeHeader (0x80 :: rest)) _ = _
    simp only [decodeHeader]
    rw [if_neg (by omega : ¬(0x80:Nat) ≤ 0x7f), if_pos (by omega : (0x80:Nat) ≤ 0xb7),
      if_neg (by omega : ¬(0x80:Nat) = 0x81)]
    unfold headerCheckLen
    rw [if_neg (by simp)]
    rw [eb_ok]
    simp [beValue]
  · rw [if_neg h0]
    by_cases h1 : v ≤ 0x7f
    · rw [if_pos h1]
      unfold decodeUint
      show eb (decodeHeader (v :: rest)) _ = _
      simp only [decodeHeader]
      rw [if_pos (by omega : v ≤ 0x7f), eb_ok]
      have hm1 : 1 ≤ m := by
        have := byteLength_pos_of_pos v (Nat.pos_of_ne_zero h0)
        omega
      simp only [Bool.false_eq_true, if_false]
      rw [if_neg (by omega)]
      simp only [List.take_cons, List.take_zero, List.drop_succ_cons, List.drop_zero]
      rw [if_neg (by simp [List.headI]; omega)]
      simp [beValue]
    · rw [if_neg h1]
      have hvpos : 0 < v := Nat.pos_of_ne_zero h0
      have hkpos : 0 < byteLength v := byteLength_pos_of_pos v hvpos
      obtain ⟨c, cs, hc, hcpos⟩ := beBytes_head_pos v hvpos
      unfold decodeUint
      show eb (decodeHeader ((0x80 + byteLength v) :: (beBytes v ++ rest))) _ = _
      simp only [decodeHeader]
      rw [if_neg (by omega : ¬0x80 + byteLength v ≤ 0x7f),
        if_pos (by omega : 0x80 + byteLength v ≤ 0xb7)]
      by_cases hk1 : byteLength v = 1
      · rw [if_pos (by omega : 0x80 + byteLength v = 0x81)]
        have hv256 : v < 256 := by
          by_contra hge
          push_neg at hge
          have : byteLength v = byteLength (v / 256) + 1 := byteLength_pos v hvpos
          have hd : 0 < v / 256 := Nat.div_pos (by omega) (by omega)
          have := byteLength_pos_of_pos (v / 256) hd
          omega
        have hbe : beBytes v = [v] := by
          rw [beBytes_pos v hvpos, Nat.div_eq_of_lt hv256, beBytes_zero,
            Nat.mod_eq_of_lt hv256]
          rfl
        rw [hbe]
        show eb (headerSingleCanon (v :: rest)) _ = _
        simp only [headerSingleCanon]
        rw [if_neg (by omega : ¬v ≤ 0x7f)]
        unfold headerCheckLen
        rw [if_neg (by simp), eb_ok]
        simp only [Bool.false_eq_true, if_false]
        rw [if_neg (by omega)]
        simp only [List.take_cons, List.take_zero, List.drop_succ_cons, List.drop_zero]
        rw [if_neg (by simp [List.headI]; omega)]
        simp [beValue]
      · rw [if_neg (by omega : ¬0x80 + byteLength v = 0x81),
          show 0x80 + byteLength v - 0x80 = byteLength v from by omega]
        unfold headerCheckLen
        rw [if_neg (by rw [List.length_append, beBytes_length]; omega), eb_ok]
        simp only [Bool.false_eq_true, if_false]
        rw [if_neg (by omega)]
        rw [← beBytes_length, take_len_append, drop_len_append]
        rw [if_neg (by rw [hc]; simp [List.headI]; omega)]
        rw [beValue_beBytes]

/-! ## Generic RLP lists (modelled from the spec) -/

/-- An RLP list: a list header declaring the payload length, then the
payload. -/
def rlpList (payload : List Nat) : List Nat :=
  rlpHeaderBytes true payload.length ++ payload

/-- Modelled from the spec: `encode_list` — each item's bytes in order behind
a list header (section 4.1). -/
def encodeRlpList {α : Type} (enc : α → List Nat) (xs : List α) : List Nat :=
  rlpList (xs.map enc).flatten

/-- Item-by-item decoding of a list payload.  The fuel argument (one unit per
consumed byte suffices) keeps the recursion structural. -/
def decodeItemsFuel {α : Type} (dec : List Nat → Except RlpError (α × List Nat)) :
    Nat → List Nat → Except RlpError (List α)
  | _, [] => .ok []
  | 0, _ :: _ => .error .MalformedHeader
  | f + 1, b :: bs =>
    eb (dec (b :: bs)) fun x =>
      eb (decodeItemsFuel dec f x.2) fun xs =>
        .ok (x.1 :: xs)

/-- Modelled from the spec: `decode_list` — a list header, then items decoded
from exactly the declared payload slice (section 4.1). -/
def decodeRlpList {α : Type} (dec : List Nat → Except RlpError (α × List Nat))
    (buf : List Nat) : Except RlpError (List α × List Nat) :=
  eb (decodeHeader buf) fun h =>
    if h.1 then
      eb (decodeItemsFuel dec h.2.1 (h.2.2.take h.2.1)) fun xs =>
        .ok (xs, h.2.2.drop h.2.1)
    else .error .UnexpectedString

theorem decodeItemsFuel_flatten {α : Type}
    (dec : List Nat → Except RlpError (α × List Nat)) (enc : α → List Nat)
    (xs : List α)
    (hne : ∀ x ∈ xs, enc x ≠ [])
    (hdec : ∀ x ∈ xs, ∀ r, dec (enc x ++ r) = .ok (x, r)) :
    ∀ fuel, (xs.map enc).flatten.length ≤ fuel →
      decodeItemsFuel dec fuel (xs.map enc).flatten = .ok xs := by
  induction xs with
  | nil =>
    intro fuel hf
    cases fuel <;> rfl
  | cons x xs ih =>
    intro fuel hf
    simp only [List.map_cons, List.flatten_cons] at hf ⊢
    obtain ⟨c, cs, hc⟩ : ∃ c cs, enc x = c :: cs := by
      cases henc : enc x with
      | nil => exact absurd henc (hne x (by simp))
      | cons c cs => exact ⟨c, cs, rfl⟩
    have hlen : 1 ≤ (enc x).length := by rw [hc]; simp
    have hfuel : ∃ f, fuel = f + 1 := by
      cases fuel with
      | zero =>
        exfalso
        rw [List.length_append] at hf
        omega
      | succ f => exact ⟨f, rfl⟩
    obtain ⟨f, rfl⟩ := hfuel
    rw [hc]
    show decodeItemsFuel dec (f + 1) (c :: (cs ++ (xs.map enc).flatten)) = _
    simp only [decodeItemsFuel]
    rw [show c :: (cs ++ (xs.map enc).flatten) = (c :: cs) ++ (xs.map enc).flatten
      from rfl, ← hc, hdec x (by simp), eb_ok]
    rw [ih (fun y hy => hne y (by simp [hy])) (fun y hy r => hdec y (by simp [hy]) r) f
      (by rw [List.length_append] at hf; omega), eb_ok]

theorem decodeRlpList_encodeRlpList {α : Type}
    (dec : List Nat → Except RlpError (α × List Nat)) (enc : α → List Nat)
    (xs : List α) (rest : List Nat)
    (hne : ∀ x ∈ xs, enc x ≠ [])
    (hdec : ∀ x ∈ xs, ∀ r, dec (enc x ++ r) = .ok (x, r))
    (hp : (xs.map enc).flatten.length < 2 ^ 64) :
    decodeRlpList dec (encodeRlpList enc xs ++ rest) = .ok (xs, rest) := by
  unfold encodeRlpList rlpList
  rw [List.append_assoc]
  unfold decodeRlpList
  rw [decodeHeader_list _ _ hp (by simp), eb_ok]
  simp only [if_true]
  rw [take_len_append, drop_len_append]
  rw [decodeItemsFuel_flatten dec enc xs hne hdec _ (Nat.le_refl _), eb_ok]

/-! ## Recipient (`TxKind`, modelled from the spec) -/

/-- Modelled from the spec: the recipient is either contract creation (no
address) or a call to a 20-byte address (section 3). -/
inductive TxKind where
  | create : TxKind
  | call : List Nat → TxKind
deriving DecidableEq

/-- Modelled from the spec: the recipient encodes as an empty byte string for
creation or as the 20-byte address string for a call (section 6). -/
def TxKind.encodeRlp : TxKind → List Nat
  | .create => [0x80]
  | .call a => encodeBytes a

/-- RLP length of the recipient (source `TxKind::length`): one byte for
creation, twenty-one for a call. -/
def TxKind.rlpLength : TxKind → Nat
  | .create => 1
  | .call _ => 21

/-- Modelled from the spec: recipient decoding — an empty byte string is
creation, a 20-byte string is a call, anything else is malformed. -/
def TxKind.decodeRlp (buf : List Nat) : Except RlpError (TxKind × List Nat) :=
  eb (decodeBytes buf) fun x =>
    if x.1.length = 0 then .ok (.create, x.2)
    else if x.1.length = 20 then .ok (.call x.1, x.2)
    else .error .MalformedHeader

/-- Well-formed recipient: a call address is exactly twenty bytes. -/
def TxKind.wf : TxKind → Prop
  | .create => True
  | .call a => a.length = 20 ∧ ∀ b ∈ a, b < 256

instance : DecidablePred TxKind.wf := by
  intro k
  cases k <;> simp [TxKind.wf] <;> infer_instance

theorem TxKind.encodeRlp_length (k : TxKind) (h : k.wf) :
    k.encodeRlp.length = k.rlpLength := by
  cases k with
  | create => rfl
  | call a =>
    obtain ⟨h20, _⟩ := h
    show (encodeBytes a).length = 21
    rw [encodeBytes_length]
    unfold bytesLength length_of_length
    rw [if_neg (by omega), if_pos (by omega)]
    omega

theorem TxKind.decodeRlp_encodeRlp (k : TxKind) (rest : List Nat) (h : k.wf) :
    TxKind.decodeRlp (k.encodeRlp ++ rest) = .ok (k, rest) := by
  cases k with
  | create =>
    show TxKind.decodeRlp ([0x80] ++ rest) = _
    have : [(0x80 : Nat)] ++ rest = encodeBytes [] ++ rest := by
      simp [encodeBytes, rlpHeaderBytes]
    rw [this]
    unfold TxKind.decodeRlp
    rw [decodeBytes_encodeBytes [] rest (by simp) (by simp), eb_ok]
    simp
  | call a =>
    obtain ⟨h20, hb⟩ := h
    show TxKind.decodeRlp (encodeBytes a ++ rest) = _
    unfold TxKind.decodeRlp
    rw [decodeBytes_encodeBytes a rest hb (by omega), eb_ok]
    simp only
    rw [if_neg (by omega), if_pos h20]

/-! ## Access list (modelled from the spec) -/

/-- Modelled from the spec: an access-list item is a 20-byte address paired
with an ordered sequence of 32-byte storage keys (section 3).  The
`AccessList` itself is the ordered sequence of items. -/
abbrev AccessItem : Type := List Nat × List (List Nat)

/-- Well-formed access-list item: 20-byte address, 32-byte keys, all bytes
in range. -/
def accessItemWf (it : AccessItem) : Prop :=
  it.1.length = 20 ∧ (∀ b ∈ it.1, b < 256) ∧
    ∀ k ∈ it.2, k.length = 32 ∧ ∀ b ∈ k, b < 256

instance : DecidablePred accessItemWf := by
  intro it
  unfold accessItemWf
  infer_instance

/-- Modelled from the spec: a storage key encodes as its 32-byte string. -/
def encodeStorageKeys (keys : List (List Nat)) : List Nat :=
  encodeRlpList encodeBytes keys

/-- Modelled from the spec: an item encodes as the RLP list of the address
string and the storage-key list (section 6). -/
def encodeAccessItem (it : AccessItem) : List Nat :=
  rlpList (encodeBytes it.1 ++ encodeStorageKeys it.2)

/-- Modelled from the spec: the access list encodes as the RLP list of its
items (section 6). -/
def encodeAccessList (al : List AccessItem) : List Nat :=
  encodeRlpList encodeAccessItem al

/-- RLP length of the storage-key list (each key is 33 encoded bytes). -/
def storageKeysLength (keys : List (List Nat)) : Nat :=
  length_of_length (33 * keys.length) + 33 * keys.length

/-- RLP length of an access-list item. -/
def accessItemLength (it : AccessItem) : Nat :=
  length_of_length (21 + storageKeysLength it.2) + (21 + storageKeysLength it.2)

/-- RLP length of the access list (source `AccessList::length`). -/
def accessListLength (al : List AccessItem) : Nat :=
  length_of_length ((al.map accessItemLength).sum) + (al.map accessItemLength).sum

/-- Decode a 32-byte storage key. -/
def decodeB256 (buf : List Nat) : Except RlpError (List Nat × List Nat) :=
  eb (decodeBytes buf) fun x =>
    if x.1.length = 32 then .ok (x.1, x.2) else .error .MalformedHeader

/-- Decode a 20-byte address. -/
def decodeAddress (buf : List Nat) : Except RlpError (List Nat × List Nat) :=
  eb (decodeBytes buf) fun x =>
    if x.1.length = 20 then .ok (x.1, x.2) else .error .MalformedHeader

/-- Modelled from the spec: decode an access-list item — a list header, an
address, the storage keys, with the item payload consumed exactly. -/
def decodeAccessItem (buf : List Nat) : Except RlpError (AccessItem × List Nat) :=
  eb (decodeHeader buf) fun h =>
    if h.1 then
      eb (decodeAddress (h.2.2.take h.2.1)) fun a =>
        eb (decodeRlpList decodeB256 a.2) fun ks =>
          if ks.2 = [] then .ok ((a.1, ks.1), h.2.2.drop h.2.1)
          else .error .MalformedHeader
    else .error .UnexpectedString

/-- Modelled from the spec: decode the access list as the RLP list of its
items. -/
def decodeAccessList (buf : List Nat) : Except RlpError (List AccessItem × List Nat) :=
  decodeRlpList decodeAccessItem buf

theorem encodeBytes_key_length (k : List Nat) (h32 : k.length = 32) :
    (encodeBytes k).length = 33 := by
  rw [encodeBytes_length]
  unfold bytesLength length_of_length
  rw [if_neg (by omega), if_pos (by omega)]
  omega

theorem storageKeys_flatten_length (keys : List (List Nat))
    (h : ∀ k ∈ keys, k.length = 32) :
    (keys.map encodeBytes).flatten.length = 33 * keys.length := by
  rw [List.length_flatten]
  induction keys with
  | nil => rfl
  | cons k ks ih =>
    simp only [List.map_cons, List.map_map, List.sum_cons] at ih ⊢
    rw [encodeBytes_key_length k (h k (by simp)), ih (fun x hx => h x (by simp [hx]))]
    simp [Nat.mul_succ]
    ring

theorem encodeStorageKeys_length (keys : List (List Nat))
    (h : ∀ k ∈ keys, k.length = 32 ∧ ∀ b ∈ k, b < 256) :
    (encodeStorageKeys keys).length = storageKeysLength keys := by
  unfold encodeStorageKeys encodeRlpList rlpList storageKeysLength
  rw [List.length_append, rlpHeaderBytes_length,
    storageKeys_flatten_length keys (fun k hk => (h k hk).1)]

theorem encodeAccessItem_length (it : AccessItem) (h : accessItemWf it) :
    (encodeAccessItem it).length = accessItemLength it := by
  obtain ⟨h20, hb, hk⟩ := h
  unfold encodeAccessItem rlpList accessItemLength
  have haddr : (encodeBytes it.1).length = 21 := by
    rw [encodeBytes_length]
    unfold bytesLength length_of_length
    rw [if_neg (by omega), if_pos (by omega)]
    omega
  have hkeys := encodeStorageKeys_length it.2 hk
  rw [List.length_append, rlpHeaderBytes_length, List.length_append, haddr, hkeys]

theorem encodeAccessList_length (al : List AccessItem)
    (h : ∀ it ∈ al, accessItemWf it) :
    (encodeAccessList al).length = accessListLength al := by
  unfold encodeAccessList encodeRlpList rlpList accessListLength
  have hflat : (al.map encodeAccessItem).flatten.length
      = (al.map accessItemLength).sum := by
    rw [List.length_flatten]
    induction al with
    | nil => rfl
    | cons it its ih =>
      simp only [List.map_cons, List.map_map, List.sum_cons] at ih ⊢
      rw [encodeAccessItem_length it (h it (by simp)),
        ih (fun x hx => h x (by simp [hx]))]
  rw [List.length_append, rlpHeaderBytes_length, hflat]

theorem rlpHeaderBytes_ne_nil (isList : Bool) (p : Nat) :
    rlpHeaderBytes isList p ≠ [] := by
  unfold rlpHeaderBytes
  by_cases h : p < 56 <;> simp [h]

theorem rlpList_ne_nil (payload : List Nat) : rlpList payload ≠ [] := by
  unfold rlpList
  intro h
  exact rlpHeaderBytes_ne_nil true payload.length (List.append_eq_nil.mp h).1

theorem decodeB256_encodeBytes (k : List Nat) (rest : List Nat)
    (h32 : k.length = 32) (hb : ∀ b ∈ k, b < 256) :
    decodeB256 (encodeBytes k ++ rest) = .ok (k, rest) := by
  unfold decodeB256
  rw [decodeBytes_encodeBytes k rest hb (by omega), eb_ok]
  simp only
  rw [if_pos h32]

theorem decodeAccessItem_encodeAccessItem (it : AccessItem) (rest : List Nat)
    (hwf : accessItemWf it)
    (hb : (encodeAccessItem it).length < 2 ^ 64) :
    decodeAccessItem (encodeAccessItem it ++ rest) = .ok (it, rest) := by
  obtain ⟨h20, haddr, hkeys⟩ := hwf
  have hpay : (encodeBytes it.1 ++ encodeStorageKeys it.2).length < 2 ^ 64 := by
    have : (encodeAccessItem it).length
        = (rlpHeaderBytes true (encodeBytes it.1 ++ encodeStorageKeys it.2).length).length
          + (encodeBytes it.1 ++ encodeStorageKeys it.2).length := by
      unfold encodeAccessItem rlpList
      rw [List.length_append]
    omega
  unfold encodeAccessItem rlpList
  rw [List.append_assoc]
  unfold decodeAccessItem
  rw [decodeHeader_list _ _ hpay (by simp), eb_ok]
  simp only [if_true]
  rw [take_len_append, drop_len_append]
  have haddr21 : (encodeBytes it.1).length = 21 := by
    rw [encodeBytes_length]
    unfold bytesLength length_of_length
    rw [if_neg (by omega), if_pos (by omega)]
    omega
  unfold decodeAddress
  rw [decodeBytes_encodeBytes it.1 (encodeStorageKeys it.2) haddr (by omega), eb_ok]
  simp only
  rw [if_pos h20, eb_ok]
  have hkeysb : (it.2.map encodeBytes).flatten.length < 2 ^ 64 := by
    have h1 : (encodeStorageKeys it.2).length
        = (rlpHeaderBytes true (it.2.map encodeBytes).flatten.length).length
          + (it.2.map encodeBytes).flatten.length := by
      unfold encodeStorageKeys encodeRlpList rlpList
      rw [List.length_append]
    have h2 : (encodeStorageKeys it.2).length
        ≤ (encodeBytes it.1 ++ encodeStorageKeys it.2).length := by
      rw [List.length_append]
      omega
    omega
  have hdecs : decodeRlpList decodeB256 (encodeStorageKeys it.2 ++ []) = .ok (it.2, []) := by
    apply decodeRlpList_encodeRlpList decodeB256 encodeBytes it.2 []
      (fun k hk => by
        intro hnil
        have := encodeBytes_key_length k (hkeys k hk).1
        rw [hnil] at this
        simp at this)
      (fun k hk r => decodeB256_encodeBytes k r (hkeys k hk).1 (hkeys k hk).2)
      hkeysb
  rw [List.append_nil] at hdecs
  rw [hdecs, eb_ok]
  simp

theorem decodeAccessList_encodeAccessList (al : List AccessItem) (rest : List Nat)
    (hwf : ∀ it ∈ al, accessItemWf it)
    (hb : (al.map encodeAccessItem).flatten.length < 2 ^ 64) :
    decodeAccessList (encodeAccessList al ++ rest) = .ok (al, rest) := by
  unfold decodeAccessList encodeAccessList
  apply decodeRlpList_encodeRlpList decodeAccessItem encodeAccessItem al rest
    (fun it hit => by
      unfold encodeAccessItem
      exact rlpList_ne_nil _)
    (fun it hit r => by
      apply decodeAccessItem_encodeAccessItem it r (hwf it hit)
      have hmem : (encodeAccessItem it).length
          ∈ al.map (fun i => (encodeAccessItem i).length) :=
        List.mem_map_of_mem _ hit
      have hle : (encodeAccessItem it).length
          ≤ (al.map (fun i => (encodeAccessItem i).length)).sum :=
        List.single_le_sum (fun x _ => Nat.zero_le x) _ hmem
      have hsum : (al.map encodeAccessItem).flatten.length
          = (al.map (fun i => (encodeAccessItem i).length)).sum := by
        rw [List.length_flatten, List.map_map]
        rfl
      omega)
    hb

/-! ## Signature and parity (modelled from the spec) -/

/-- Modelled from the spec: the signature parity is either a plain y-parity
boolean, the pre-EIP-155 27/28 convention, or the legacy EIP-155 value with
the chain id embedded (`v = 35 + y + 2 * chain_id`) (sections 3 and 4.4). -/
inductive Parity where
  | parityBool : Bool → Parity
  | nonEip155 : Bool → Parity
  | eip155 : Nat → Parity
deriving DecidableEq

/-- The y-parity boolean carried by a parity value; for a legacy EIP-155
value `v = 35 + y + 2 * chain_id` the parity is `v % 2 = 0` exactly when
`y = 1`. -/
def Parity.yParity : Parity → Bool
  | .parityBool b => b
  | .nonEip155 b => b
  | .eip155 v => v % 2 = 0

/-- Modelled from the spec: the wire form of the parity is the RLP integer
`0`/`1` for a plain boolean, `27`/`28` for the pre-EIP-155 convention and the
raw `v` for a legacy EIP-155 value (section 6). -/
def Parity.encodeRlp : Parity → List Nat
  | .parityBool b => encodeUint (if b then 1 else 0)
  | .nonEip155 b => encodeUint (if b then 28 else 27)
  | .eip155 v => encodeUint v

/-- RLP length of the parity value. -/
def Parity.rlpLength : Parity → Nat
  | .parityBool _ => 1
  | .nonEip155 _ => 1
  | .eip155 v => uintLength v

/-- Modelled from the spec: parity decoding inverts the wire form; a `v`
value of 35 or more is a legacy EIP-155 parity, anything else outside
`{0, 1, 27, 28}` is malformed. -/
def Parity.decodeRlp (buf : List Nat) : Except RlpError (Parity × List Nat) :=
  eb (decodeUint 8 buf) fun x =>
    if x.1 = 0 then .ok (.parityBool false, x.2)
    else if x.1 = 1 then .ok (.parityBool true, x.2)
    else if x.1 = 27 then .ok (.nonEip155 false, x.2)
    else if x.1 = 28 then .ok (.nonEip155 true, x.2)
    else if 35 ≤ x.1 then .ok (.eip155 x.1, x.2)
    else .error .MalformedHeader

/-- Well-formed parity: a legacy EIP-155 value is at least 35 and fits in a
`u64`. -/
def Parity.wf : Parity → Prop
  | .parityBool _ => True
  | .nonEip155 _ => True
  | .eip155 v => 35 ≤ v ∧ v < 2 ^ 64

instance : DecidablePred Parity.wf := by
  intro p
  cases p <;> simp [Parity.wf] <;> infer_instance

/-- Modelled from the spec: an ECDSA signature as carried by the codec — the
`r` and `s` scalars and the parity (section 3). -/
structure Signature where
  r : Nat
  s : Nat
  parity : Parity
deriving DecidableEq

/-- Well-formed signature: 256-bit scalars and a well-formed parity. -/
def Signature.wf (sig : Signature) : Prop :=
  sig.r < 2 ^ 256 ∧ sig.s < 2 ^ 256 ∧ sig.parity.wf

instance : DecidablePred Signature.wf := by
  intro sig
  unfold Signature.wf
  infer_instance

/-- Source `Signature::with_parity_bool`: drop any chain-id or 27/28
information, keeping only the plain y-parity boolean. -/
def Signature.with_parity_bool (sig : Signature) : Signature :=
  { r := sig.r, s := sig.s, parity := .parityBool sig.parity.yParity }

/-- Source `Signature::write_rlp_vrs`: the parity, then `r`, then `s`, each
as an RLP integer. -/
def Signature.write_rlp_vrs (sig : Signature) : List Nat :=
  sig.parity.encodeRlp ++ encodeUint sig.r ++ encodeUint sig.s

/-- Source `Signature::rlp_vrs_len`: the summed RLP lengths of the parity,
`r` and `s`. -/
def Signature.rlp_vrs_len (sig : Signature) : Nat :=
  sig.parity.rlpLength + uintLength sig.r + uintLength sig.s

/-- Source `Signature::decode_rlp_vrs`: decode the parity, then `r`, then
`s`. -/
def Signature.decode_rlp_vrs (buf : List Nat) :
    Except RlpError (Signature × List Nat) :=
  eb (Parity.decodeRlp buf) fun p =>
    eb (decodeUint 32 p.2) fun r =>
      eb (decodeUint 32 r.2) fun s =>
        .ok ({ r := r.1, s := s.1, parity := p.1 }, s.2)

theorem Parity.parity_encode_length (p : Parity) :
    p.encodeRlp.length = p.rlpLength := by
  cases p with
  | parityBool b => cases b <;> rfl
  | nonEip155 b => cases b <;> rfl
  | eip155 v => exact encodeUint_length v

theorem Signature.write_rlp_vrs_length (sig : Signature) :
    sig.write_rlp_vrs.length = sig.rlp_vrs_len := by
  unfold Signature.write_rlp_vrs Signature.rlp_vrs_len
  rw [List.length_append, List.length_append, Parity.parity_encode_length,
    encodeUint_length, encodeUint_length]

theorem Parity.parity_decode_encode (p : Parity) (rest : List Nat) (h : p.wf) :
    Parity.decodeRlp (p.encodeRlp ++ rest) = .ok (p, rest) := by
  cases p with
  | parityBool b =>
    cases b <;>
      (unfold Parity.decodeRlp Parity.encodeRlp
       rw [decodeUint_encodeUint 8 _ rest (by decide) (by omega), eb_ok]
       simp)
  | nonEip155 b =>
    cases b <;>
      (unfold Parity.decodeRlp Parity.encodeRlp
       rw [decodeUint_encodeUint 8 _ rest (by decide) (by omega), eb_ok]
       simp)
  | eip155 v =>
    obtain ⟨h35, h64⟩ := h
    unfold Parity.decodeRlp Parity.encodeRlp
    rw [decodeUint_encodeUint 8 v rest (byteLength_le 8 v h64) (by omega), eb_ok]
    simp only
    rw [if_neg (by omega), if_neg (by omega), if_neg (by omega), if_neg (by omega),
      if_pos h35]

theorem Signature.decode_rlp_vrs_write (sig : Signature) (rest : List Nat)
    (h : sig.wf) :
    Signature.decode_rlp_vrs (sig.write_rlp_vrs ++ rest) = .ok (sig, rest) := by
  obtain ⟨hr, hs, hp⟩ := h
  unfold Signature.write_rlp_vrs Signature.decode_rlp_vrs
  rw [List.append_assoc, List.append_assoc]
  rw [Parity.parity_decode_encode sig.parity _ hp, eb_ok]
  simp only
  rw [decodeUint_encodeUint 32 sig.r _ (byteLength_le 32 sig.r hr) (by omega), eb_ok]
  simp only
  rw [decodeUint_encodeUint 32 sig.s _ (byteLength_le 32 sig.s hs) (by omega), eb_ok]

/-! ## The EIP-2930 transaction (translated from the source) -/

/-- Transaction type discriminants (source `TxType`; only the EIP-2930
variant is needed here). -/
inductive TxType where
  | Eip2930 : TxType
deriving DecidableEq

/-- Wire discriminant byte of a transaction type (`TxType::Eip2930 = 1`). -/
def TxType.toByte : TxType → Nat
  | .Eip2930 => 1

/-- Source `TxEip2930`: the access-list transaction record, fields in source
order. -/
structure TxEip2930 where
  chain_id : Nat
  nonce : Nat
  gas_price : Nat
  gas_limit : Nat
  recipient : TxKind
  value : Nat
  access_list : List AccessItem
  input : List Nat
deriving DecidableEq

/-- Source `TxEip2930::tx_type`. -/
def TxEip2930.tx_type (tx : TxEip2930) : TxType := .Eip2930

/-- Source `TxEip2930::decode_inner`: the eight fields in order — chain_id,
nonce, gas_price, gas_limit, to, value, input, access_list. -/
def TxEip2930.decode_inner (buf : List Nat) :
    Except RlpError (TxEip2930 × List Nat) :=
  eb (decodeUint 8 buf) fun c =>
    eb (decodeUint 8 c.2) fun n =>
      eb (decodeUint 16 n.2) fun g =>
        eb (decodeUint 8 g.2) fun l =>
          eb (TxKind.decodeRlp l.2) fun t =>
            eb (decodeUint 32 t.2) fun v =>
              eb (decodeBytes v.2) fun i =>
                eb (decodeAccessList i.2) fun a =>
                  .ok ({ chain_id := c.1, nonce := n.1, gas_price := g.1,
                         gas_limit := l.1, recipient := t.1, value := v.1,
                         access_list := a.1, input := i.1 }, a.2)

/-- Source `TxEip2930::fields_len`: the summed RLP lengths of the eight
fields, without the outer list header. -/
def TxEip2930.fields_len (tx : TxEip2930) : Nat :=
  uintLength tx.chain_id + uintLength tx.nonce + uintLength tx.gas_price +
    uintLength tx.gas_limit + tx.recipient.rlpLength + uintLength tx.value +
    bytesLength tx.input + accessListLength tx.access_list

/-- Source `TxEip2930::encode_fields`: the eight fields in order — chain_id,
nonce, gas_price, gas_limit, to, value, input, access_list. -/
def TxEip2930.encode_fields (tx : TxEip2930) : List Nat :=
  encodeUint tx.chain_id ++ encodeUint tx.nonce ++ encodeUint tx.gas_price ++
    encodeUint tx.gas_limit ++ tx.recipient.encodeRlp ++ encodeUint tx.value ++
    encodeBytes tx.input ++ encodeAccessList tx.access_list

/-- Source `TxEip2930::encode_with_signature`: a list header declaring the
fields plus the signature, then the fields, then the signature. -/
def TxEip2930.encode_with_signature (tx : TxEip2930) (sig : Signature) : List Nat :=
  rlpHeaderBytes true (tx.fields_len + sig.rlp_vrs_len) ++
    (tx.encode_fields ++ sig.write_rlp_vrs)

/-- Source `TxEip2930::payload_len_with_signature_without_header`. -/
def TxEip2930.payload_len_with_signature_without_header
    (tx : TxEip2930) (sig : Signature) : Nat :=
  1 + length_of_length (tx.fields_len + sig.rlp_vrs_len) +
    (tx.fields_len + sig.rlp_vrs_len)

/-- Source `TxEip2930::payload_len_with_signature`. -/
def TxEip2930.payload_len_with_signature (tx : TxEip2930) (sig : Signature) : Nat :=
  length_of_length (tx.payload_len_with_signature_without_header sig) +
    tx.payload_len_with_signature_without_header sig

/-- Source `Encodable::encode` for `TxEip2930`: list header then fields. -/
def TxEip2930.encode (tx : TxEip2930) : List Nat :=
  rlpHeaderBytes true tx.fields_len ++ tx.encode_fields

/-- Source `Encodable::length` for `TxEip2930`. -/
def TxEip2930.rlpLength (tx : TxEip2930) : Nat :=
  length_of_length tx.fields_len + tx.fields_len

/-- Source `Decodable::decode` for `TxEip2930`: a header (of either kind —
the source never checks the list flag), an explicit remaining-length check,
then the fields. -/
def TxEip2930.decode (data : List Nat) : Except RlpError (TxEip2930 × List Nat) :=
  eb (decodeHeader data) fun h =>
    if h.2.2.length < h.2.1 then .error .InputTooShort
    else TxEip2930.decode_inner h.2.2

/-- Source `Transaction::encode_for_signing` for `TxEip2930`: the type byte,
a list header over the fields, then the fields — no signature bytes. -/
def TxEip2930.encode_for_signing (tx : TxEip2930) : List Nat :=
  tx.tx_type.toByte :: (rlpHeaderBytes true tx.fields_len ++ tx.encode_fields)

/-- Source `Transaction::payload_len_for_signature` for `TxEip2930`. -/
def TxEip2930.payload_len_for_signature (tx : TxEip2930) : Nat :=
  1 + length_of_length tx.fields_len + tx.fields_len

/-- Source `alloy_network::Signed`: a transaction sealed with its signature
and cached hash. -/
structure Signed where
  tx : TxEip2930
  signature : Signature
  hash : List Nat
deriving DecidableEq

/-- Source `Transaction::into_signed` for `TxEip2930`: hash the type byte
followed by the signed encoding, and normalize the signature parity to a
plain boolean. -/
def TxEip2930.into_signed (keccak : List Nat → List Nat) (tx : TxEip2930)
    (sig : Signature) : Signed :=
  { tx := tx, signature := sig.with_parity_bool,
    hash := keccak (tx.tx_type.toByte :: tx.encode_with_signature sig) }

/-- Source `Transaction::encode_signed` for `TxEip2930`. -/
def TxEip2930.encode_signed (tx : TxEip2930) (sig : Signature) : List Nat :=
  tx.encode_with_signature sig

/-- The pure part of `Transaction::decode_signed` for `TxEip2930`: header
(must be a list), the eight fields, then the signature triple. -/
def TxEip2930.decode_signed_fields (buf : List Nat) :
    Except RlpError ((TxEip2930 × Signature) × List Nat) :=
  eb (decodeHeader buf) fun h =>
    if h.1 then
      eb (TxEip2930.decode_inner h.2.2) fun t =>
        eb (Signature.decode_rlp_vrs t.2) fun s =>
          .ok ((t.1, s.1), s.2)
    else .error .UnexpectedString

/-- Source `Transaction::decode_signed` for `TxEip2930`: decode the fields
and the signature, then seal with `into_signed`. -/
def TxEip2930.decode_signed (keccak : List Nat → List Nat) (buf : List Nat) :
    Except RlpError (Signed × List Nat) :=
  match TxEip2930.decode_signed_fields buf with
  | .error e => .error e
  | .ok x => .ok (TxEip2930.into_signed keccak x.1.1 x.1.2, x.2)

/-- Well-formed transaction: fields fit their machine widths, byte strings
hold bytes, and the total field length fits comfortably below the `u64`
header bound. -/
def TxEip2930.wf (tx : TxEip2930) : Prop :=
  tx.chain_id < 2 ^ 64 ∧ tx.nonce < 2 ^ 64 ∧ tx.gas_price < 2 ^ 128 ∧
    tx.gas_limit < 2 ^ 64 ∧ tx.recipient.wf ∧ tx.value < 2 ^ 256 ∧
    (∀ it ∈ tx.access_list, accessItemWf it) ∧ (∀ b ∈ tx.input, b < 256) ∧
    tx.fields_len ≤ 2 ^ 62

instance : DecidablePred TxEip2930.wf := by
  intro tx
  unfold TxEip2930.wf
  infer_instance

/-! ## Accessors (translated from the source `Transaction` impl) -/

/-- Source `Transaction::input` for `TxEip2930`. -/
def TxEip2930.inputGet (tx : TxEip2930) : List Nat := tx.input

/-- Source `Transaction::set_input` for `TxEip2930`. -/
def TxEip2930.set_input (tx : TxEip2930) (i : List Nat) : TxEip2930 :=
  { tx with input := i }

/-- Source `Transaction::to` for `TxEip2930`. -/
def TxEip2930.toGet (tx : TxEip2930) : TxKind := tx.recipient

/-- Source `Transaction::set_to` for `TxEip2930`. -/
def TxEip2930.set_to (tx : TxEip2930) (k : TxKind) : TxEip2930 :=
  { tx with recipient := k }

/-- Source `Transaction::value` for `TxEip2930`. -/
def TxEip2930.valueGet (tx : TxEip2930) : Nat := tx.value

/-- Source `Transaction::set_value` for `TxEip2930`. -/
def TxEip2930.set_value (tx : TxEip2930) (v : Nat) : TxEip2930 :=
  { tx with value := v }

/-- Source `Transaction::chain_id` for `TxEip2930` (always `Some`). -/
def TxEip2930.chain_idGet (tx : TxEip2930) : Option Nat := some tx.chain_id

/-- Source `Transaction::set_chain_id` for `TxEip2930`. -/
def TxEip2930.set_chain_id (tx : TxEip2930) (c : Nat) : TxEip2930 :=
  { tx with chain_id := c }

/-- Source `Transaction::nonce` for `TxEip2930`. -/
def TxEip2930.nonceGet (tx : TxEip2930) : Nat := tx.nonce

/-- Source `Transaction::set_nonce` for `TxEip2930`. -/
def TxEip2930.set_nonce (tx : TxEip2930) (n : Nat) : TxEip2930 :=
  { tx with nonce := n }

/-- Source `Transaction::gas_limit` for `TxEip2930`. -/
def TxEip2930.gas_limitGet (tx : TxEip2930) : Nat := tx.gas_limit

/-- Source `Transaction::set_gas_limit` for `TxEip2930`. -/
def TxEip2930.set_gas_limit (tx : TxEip2930) (l : Nat) : TxEip2930 :=
  { tx with gas_limit := l }

/-- Source `Transaction::gas_price` for `TxEip2930` (always `Some`). -/
def TxEip2930.gas_priceGet (tx : TxEip2930) : Option Nat := some tx.gas_price

/-- The `U256 -> u128` conversion used by `set_gas_price`
(`price.try_into()`): succeeds exactly when the value fits in 128 bits. -/
def u128TryFrom (price : Nat) : Option Nat :=
  if price < 2 ^ 128 then some price else none

/-- Source `Transaction::set_gas_price` for `TxEip2930`: stores the price
when the conversion succeeds and silently leaves the transaction unchanged
otherwise. -/
def TxEip2930.set_gas_price (tx : TxEip2930) (price : Nat) : TxEip2930 :=
  match u128TryFrom price with
  | some p => { tx with gas_price := p }
  | none => tx

/-! ## Typed-transaction envelope (modelled from the spec) -/

/-- Modelled from the spec: when nested in an outer RLP context the sealed
typed transaction is wrapped as an RLP byte string holding the type byte and
the signed payload (sections 4.3 and 4.5). -/
def txEnvelopeEncode (env : Signed) : List Nat :=
  let inner := TxType.Eip2930.toByte :: env.tx.encode_with_signature env.signature
  rlpHeaderBytes false inner.length ++ inner

/-- Modelled from the spec: the envelope dispatcher — a leading byte in
`[0xc0, 0xff]` is an untyped legacy transaction (whose schema is outside the
modelled core), otherwise the string header is decoded, the discriminant
is matched and the variant's signed decoder is invoked (section 4.5). -/
def txEnvelopeDecode (keccak : List Nat → List Nat) (buf : List Nat) :
    Except RlpError (Signed × List Nat) :=
  match buf with
  | [] => .error .InputTooShort
  | b :: _ =>
    if 0xc0 ≤ b then .error .UnsupportedTransactionType
    else
      eb (decodeHeader buf) fun h =>
        match h.2.2 with
        | [] => .error .InputTooShort
        | t :: rest2 =>
          if t = TxType.Eip2930.toByte then TxEip2930.decode_signed keccak rest2
          else .error .UnsupportedTransactionType

/-! ## Composite length and round-trip lemmas -/

theorem bytesLength_ge (bs : List Nat) : bs.length ≤ bytesLength bs := by
  unfold bytesLength
  by_cases h : bs.length = 1 ∧ bs.headI < 0x80
  · rw [if_pos h]
    omega
  · rw [if_neg h]
    omega

theorem uintLength_le (v : Nat) (h : v < 2 ^ 64) : uintLength v ≤ 9 := by
  unfold uintLength
  have := byteLength_le 8 v h
  by_cases h1 : v ≤ 0x7f <;> simp [h1] <;> omega

theorem Signature.rlp_vrs_len_le (sig : Signature) (h : sig.wf) :
    sig.rlp_vrs_len ≤ 75 := by
  obtain ⟨hr, hs, hp⟩ := h
  unfold Signature.rlp_vrs_len
  have hrl : uintLength sig.r ≤ 33 := by
    unfold uintLength
    have := byteLength_le 32 sig.r hr
    by_cases h1 : sig.r ≤ 0x7f <;> simp [h1] <;> omega
  have hsl : uintLength sig.s ≤ 33 := by
    unfold uintLength
    have := byteLength_le 32 sig.s hs
    by_cases h1 : sig.s ≤ 0x7f <;> simp [h1] <;> omega
  have hpl : sig.parity.rlpLength ≤ 9 := by
    cases hparity : sig.parity with
    | parityBool b => simp [Parity.rlpLength]
    | nonEip155 b => simp [Parity.rlpLength]
    | eip155 v =>
      rw [hparity] at hp
      exact uintLength_le v hp.2
  omega

theorem TxEip2930.encode_fields_length (tx : TxEip2930) (h : tx.wf) :
    tx.encode_fields.length = tx.fields_len := by
  obtain ⟨h1, h2, h3, h4, h5, h6, h7, h8, h9⟩ := h
  unfold TxEip2930.encode_fields TxEip2930.fields_len
  simp only [List.length_append]
  rw [encodeUint_length, encodeUint_length, encodeUint_length, encodeUint_length,
    TxKind.encodeRlp_length _ h5, encodeUint_length, encodeBytes_length,
    encodeAccessList_length _ h7]

theorem TxEip2930.accessList_flatten_lt (tx : TxEip2930) (h : tx.wf) :
    (tx.access_list.map encodeAccessItem).flatten.length < 2 ^ 64 := by
  obtain ⟨h1, h2, h3, h4, h5, h6, h7, h8, h9⟩ := h
  have hfl : (tx.access_list.map encodeAccessItem).flatten.length
      ≤ (encodeAccessList tx.access_list).length := by
    unfold encodeAccessList encodeRlpList rlpList
    rw [List.length_append]
    omega
  have hal : (encodeAccessList tx.access_list).length
      = accessListLength tx.access_list := encodeAccessList_length _ h7
  have hle : accessListLength tx.access_list ≤ tx.fields_len := by
    unfold TxEip2930.fields_len
    omega
  omega

theorem TxEip2930.decode_inner_encode_fields (tx : TxEip2930) (r : List Nat)
    (h : tx.wf) : TxEip2930.decode_inner (tx.encode_fields ++ r) = .ok (tx, r) := by
  have hflat := TxEip2930.accessList_flatten_lt tx h
  obtain ⟨h1, h2, h3, h4, h5, h6, h7, h8, h9⟩ := h
  have hinlen : tx.input.length < 2 ^ 64 := by
    have hge := bytesLength_ge tx.input
    have : bytesLength tx.input ≤ tx.fields_len := by
      unfold TxEip2930.fields_len
      omega
    omega
  unfold TxEip2930.encode_fields TxEip2930.decode_inner
  simp only [List.append_assoc]
  rw [decodeUint_encodeUint 8 tx.chain_id _ (byteLength_le 8 _ h1) (by omega), eb_ok]
  dsimp only
  rw [decodeUint_encodeUint 8 tx.nonce _ (byteLength_le 8 _ h2) (by omega), eb_ok]
  dsimp only
  rw [decodeUint_encodeUint 16 tx.gas_price _ (byteLength_le 16 _ h3) (by omega), eb_ok]
  dsimp only
  rw [decodeUint_encodeUint 8 tx.gas_limit _ (byteLength_le 8 _ h4) (by omega), eb_ok]
  dsimp only
  rw [TxKind.decodeRlp_encodeRlp tx.recipient _ h5, eb_ok]
  dsimp only
  rw [decodeUint_encodeUint 32 tx.value _ (byteLength_le 32 _ h6) (by omega), eb_ok]
  dsimp only
  rw [decodeBytes_encodeBytes tx.input _ h8 hinlen, eb_ok]
  dsimp only
  rw [decodeAccessList_encodeAccessList tx.access_list r h7 hflat, eb_ok]

theorem TxEip2930.decode_signed_fields_encode (tx : TxEip2930) (sig : Signature)
    (ht : tx.wf) (hs : sig.wf) :
    TxEip2930.decode_signed_fields (tx.encode_with_signature sig)
      = .ok ((tx, sig), []) := by
  have hfl := TxEip2930.encode_fields_length tx ht
  have hsl := Signature.write_rlp_vrs_length sig
  have hvl := Signature.rlp_vrs_len_le sig hs
  have hfb : tx.fields_len ≤ 2 ^ 62 := ht.2.2.2.2.2.2.2.2
  unfold TxEip2930.encode_with_signature TxEip2930.decode_signed_fields
  rw [decodeHeader_list _ _ (by omega)
    (by rw [List.length_append, hfl, hsl])]
  rw [eb_ok]
  dsimp only
  simp only [if_true]
  have hdi := TxEip2930.decode_inner_encode_fields tx sig.write_rlp_vrs ht
  rw [hdi, eb_ok]
  dsimp only
  have hvr := Signature.decode_rlp_vrs_write sig [] hs
  rw [List.append_nil] at hvr
  rw [hvr, eb_ok]

/-! ## Test fixtures -/

/-- The fixed test signature of the source test suite
(`Signature::test_signature`). -/
def testSignature : Signature :=
  { r := 0x840cfc572845f5786e702984c2a582528cad4b49b2a10b9db1be7fca90058565,
    s := 0x25e7109ceb98168d95b09b18bbf6b685130e0562f233877d492b94eee0c5b6d1,
    parity := .parityBool false }

/-- The call transaction of the source test `test_decode_call`. -/
def testCallTx : TxEip2930 :=
  { chain_id := 1, nonce := 0, gas_price := 1, gas_limit := 2,
    recipient := .call (List.replicate 20 0), value := 3,
    access_list := [], input := [1, 2] }

/-- The expected sealed wire bytes of the source test `test_decode_call`. -/
def testVectorBytes : List Nat := [
    0xb8, 0x64, 0x01, 0xf8, 0x61, 0x01, 0x80, 0x01, 0x02, 0x94, 0x00, 0x00,
    0x00, 0x00, 0x00, 0x00, 0x00, 0x00, 0x00, 0x00, 0x00, 0x00, 0x00, 0x00,
    0x00, 0x00, 0x00, 0x00, 0x00, 0x00, 0x03, 0x82, 0x01, 0x02, 0xc0, 0x80,
    0xa0, 0x84, 0x0c, 0xfc, 0x57, 0x28, 0x45, 0xf5, 0x78, 0x6e, 0x70, 0x29,
    0x84, 0xc2, 0xa5, 0x82, 0x52, 0x8c, 0xad, 0x4b, 0x49, 0xb2, 0xa1, 0x0b,
    0x9d, 0xb1, 0xbe, 0x7f, 0xca, 0x90, 0x05, 0x85, 0x65, 0xa0, 0x25, 0xe7,
    0x10, 0x9c, 0xeb, 0x98, 0x16, 0x8d, 0x95, 0xb0, 0x9b, 0x18, 0xbb, 0xf6,
    0xb6, 0x85, 0x13, 0x0e, 0x05, 0x62, 0xf2, 0x33, 0x87, 0x7d, 0x49, 0x2b,
    0x94, 0xee, 0xe0, 0xc5, 0xb6, 0xd1]

/-- A small transaction with a non-empty access list, used to instantiate
the universally quantified theorems. -/
def sampleTx : TxEip2930 :=
  { chain_id := 1, nonce := 2, gas_price := 3, gas_limit := 4,
    recipient := .call (List.replicate 20 7), value := 5,
    access_list := [(List.replicate 20 1, [List.replicate 32 2])],
    input := [0xab] }

/-- A signature carrying a legacy EIP-155 parity (`v = 38`, so chain id 1 and
odd y-parity), used to instantiate the universally quantified theorems. -/
def sampleSig : Signature :=
  { r := 5, s := 6, parity := .eip155 38 }

/-! ## Claims -/

/-- C2: for every valid transaction and every well-formed signature, decoding
the signed encoding succeeds and returns the sealed value holding exactly the
transaction together with the parity-normalized signature. -/
theorem C2_decode_signed_encode_round_trip (keccak : List Nat → List Nat)
    (tx : TxEip2930) (sig : Signature) (ht : tx.wf) (hs : sig.wf) :
    TxEip2930.decode_signed keccak (tx.encode_with_signature sig)
      = .ok (TxEip2930.into_signed keccak tx sig, []) ∧
    (TxEip2930.into_signed keccak tx sig).signature = sig.with_parity_bool := by
  refine ⟨?_, rfl⟩
  unfold TxEip2930.decode_signed
  rw [TxEip2930.decode_signed_fields_encode tx sig ht hs]

theorem C2_witness :
    sampleTx.wf ∧ sampleSig.wf ∧
      (TxEip2930.decode_signed (fun _ => []) (sampleTx.encode_with_signature sampleSig)
          = .ok (TxEip2930.into_signed (fun _ => []) sampleTx sampleSig, []) ∧
        (TxEip2930.into_signed (fun _ => []) sampleTx sampleSig).signature
          = sampleSig.with_parity_bool) :=
  ⟨by decide, by decide,
    C2_decode_signed_encode_round_trip (fun _ => []) sampleTx sampleSig
      (by decide) (by decide)⟩

/-- C3 counterexample: at the legacy-parity signature `sampleSig`
(parity `eip155 38`) and the hash function taken to be the identity, the
sealed value's cached hash is the preimage holding the INPUT parity byte
`0x26`, which differs from the hash of the preimage built from the sealed
value's own normalized signature (parity byte `0x01`) — so the cached hash
does not cover the sealed signature's r, s, parity as the claim states. -/
theorem C3_counterexample :
    (TxEip2930.into_signed (fun bs => bs) sampleTx sampleSig).signature
      = sampleSig.with_parity_bool ∧
    (TxEip2930.into_signed (fun bs => bs) sampleTx sampleSig).hash
      ≠ (fun bs => bs) (TxType.Eip2930.toByte ::
          (rlpHeaderBytes true (sampleTx.fields_len
              + (sampleSig.with_parity_bool).rlp_vrs_len) ++
            (sampleTx.encode_fields ++
              (sampleSig.with_parity_bool).write_rlp_vrs))) :=
  ⟨rfl, by decide⟩

/-- C3 amended: sealing a transaction with any signature strips any legacy
chain-id-encoded parity down to the plain y-parity boolean (never rejecting
it), and caches the keccak hash of the type byte followed by the list header,
the unsigned fields and the INPUT signature's r, s, parity triple — the hash
is computed before the normalization.  When the input parity is already a
plain boolean, this coincides with the hash over the sealed value's own
signature triple, as originally claimed. -/
theorem C3_into_signed_normalize_hash (keccak : List Nat → List Nat)
    (tx : TxEip2930) (sig : Signature) :
    (TxEip2930.into_signed keccak tx sig).signature = sig.with_parity_bool ∧
    (TxEip2930.into_signed keccak tx sig).signature.parity
      = Parity.parityBool sig.parity.yParity ∧
    (TxEip2930.into_signed keccak tx sig).hash
      = keccak (TxType.Eip2930.toByte ::
          (rlpHeaderBytes true (tx.fields_len + sig.rlp_vrs_len) ++
            (tx.encode_fields ++ sig.write_rlp_vrs))) ∧
    (∀ b, sig.parity = .parityBool b →
      (TxEip2930.into_signed keccak tx sig).hash
        = keccak (TxType.Eip2930.toByte ::
            (rlpHeaderBytes true (tx.fields_len
                + (TxEip2930.into_signed keccak tx sig).signature.rlp_vrs_len) ++
              (tx.encode_fields ++
                (TxEip2930.into_signed keccak tx sig).signature.write_rlp_vrs)))) := by
  refine ⟨rfl, rfl, rfl, ?_⟩
  intro b hb
  have hfix : sig.with_parity_bool = sig := by
    obtain ⟨r, s', p⟩ := sig
    have hp : p = Parity.parityBool b := hb
    subst hp
    rfl
  show keccak (TxType.Eip2930.toByte ::
      (rlpHeaderBytes true (tx.fields_len + sig.rlp_vrs_len) ++
        (tx.encode_fields ++ sig.write_rlp_vrs)))
    = keccak (TxType.Eip2930.toByte ::
        (rlpHeaderBytes true (tx.fields_len + (sig.with_parity_bool).rlp_vrs_len) ++
          (tx.encode_fields ++ (sig.with_parity_bool).write_rlp_vrs)))
  rw [hfix]

theorem C3_witness :
    testSignature.parity = Parity.parityBool false ∧
    (TxEip2930.into_signed (fun _ => []) sampleTx testSignature).hash
      = (fun _ => ([] : List Nat)) (TxType.Eip2930.toByte ::
          (rlpHeaderBytes true (sampleTx.fields_len
              + (TxEip2930.into_signed (fun _ => [])
                  sampleTx testSignature).signature.rlp_vrs_len) ++
            (sampleTx.encode_fields ++
              (TxEip2930.into_signed (fun _ => [])
                  sampleTx testSignature).signature.write_rlp_vrs))) :=
  ⟨rfl,
    (C3_into_signed_normalize_hash (fun _ => []) sampleTx testSignature).2.2.2
      false rfl⟩

/-- C4: the signing preimage is exactly the type byte, the list header
declaring `fields_len`, and the encoded fields — no signature bytes — and
`payload_len_for_signature` is its exact byte length. -/
theorem C4_signing_preimage (tx : TxEip2930) (h : tx.wf) :
    tx.encode_for_signing
      = tx.tx_type.toByte :: (rlpHeaderBytes true tx.fields_len ++ tx.encode_fields) ∧
    tx.encode_for_signing.length = tx.payload_len_for_signature := by
  refine ⟨rfl, ?_⟩
  unfold TxEip2930.encode_for_signing TxEip2930.payload_len_for_signature
  rw [List.length_cons, List.length_append, rlpHeaderBytes_length,
    TxEip2930.encode_fields_length tx h]
  omega

theorem C4_witness :
    sampleTx.wf ∧
      (sampleTx.encode_for_signing
          = sampleTx.tx_type.toByte ::
              (rlpHeaderBytes true sampleTx.fields_len ++ sampleTx.encode_fields) ∧
        sampleTx.encode_for_signing.length = sampleTx.payload_len_for_signature) :=
  ⟨by decide, C4_signing_preimage sampleTx (by decide)⟩

/-- C7: the byte count written by `encode_with_signature` is exactly the
fields length plus the signature length plus the length of the list header
declaring that payload; `payload_len_with_signature_without_header` is one
more (the type byte), and `payload_len_with_signature` adds exactly the
outer RLP string header length. -/
theorem C7_length_accounting (tx : TxEip2930) (sig : Signature) (h : tx.wf) :
    (tx.encode_with_signature sig).length
      = tx.fields_len + sig.rlp_vrs_len
        + (rlpHeaderBytes true (tx.fields_len + sig.rlp_vrs_len)).length ∧
    tx.payload_len_with_signature_without_header sig
      = 1 + (tx.encode_with_signature sig).length ∧
    tx.payload_len_with_signature sig
      = tx.payload_len_with_signature_without_header sig
        + (rlpHeaderBytes false
            (tx.payload_len_with_signature_without_header sig)).length := by
  have h1 : (tx.encode_with_signature sig).length
      = tx.fields_len + sig.rlp_vrs_len
        + (rlpHeaderBytes true (tx.fields_len + sig.rlp_vrs_len)).length := by
    unfold TxEip2930.encode_with_signature
    rw [List.length_append, List.length_append,
      TxEip2930.encode_fields_length tx h, Signature.write_rlp_vrs_length]
    omega
  refine ⟨h1, ?_, ?_⟩
  · unfold TxEip2930.payload_len_with_signature_without_header
    rw [h1, rlpHeaderBytes_length]
    omega
  · unfold TxEip2930.payload_len_with_signature
    rw [rlpHeaderBytes_length]
    omega

theorem C7_witness :
    sampleTx.wf ∧
      ((sampleTx.encode_with_signature sampleSig).length
          = sampleTx.fields_len + sampleSig.rlp_vrs_len
            + (rlpHeaderBytes true
                (sampleTx.fields_len + sampleSig.rlp_vrs_len)).length ∧
        sampleTx.payload_len_with_signature_without_header sampleSig
          = 1 + (sampleTx.encode_with_signature sampleSig).length ∧
        sampleTx.payload_len_with_signature sampleSig
          = sampleTx.payload_len_with_signature_without_header sampleSig
            + (rlpHeaderBytes false
                (sampleTx.payload_len_with_signature_without_header sampleSig)).length) :=
  ⟨by decide, C7_length_accounting sampleTx sampleSig (by decide)⟩

/-- C9: the unsigned encoding round-trips through `Decodable::decode` and the
written byte count equals `Encodable::length`. -/
theorem C9_unsigned_round_trip (tx : TxEip2930) (h : tx.wf) :
    TxEip2930.decode tx.encode = .ok (tx, []) ∧
    tx.encode.length = tx.rlpLength := by
  have hfl := TxEip2930.encode_fields_length tx h
  constructor
  · unfold TxEip2930.encode TxEip2930.decode
    rw [decodeHeader_list tx.fields_len tx.encode_fields
      (by have := h.2.2.2.2.2.2.2.2; omega) (by omega), eb_ok]
    dsimp only
    rw [if_neg (by omega)]
    have hdi := TxEip2930.decode_inner_encode_fields tx [] h
    rw [List.append_nil] at hdi
    exact hdi
  · unfold TxEip2930.encode TxEip2930.rlpLength
    rw [List.length_append, rlpHeaderBytes_length, hfl]

theorem C9_witness :
    sampleTx.wf ∧
      (TxEip2930.decode sampleTx.encode = .ok (sampleTx, []) ∧
        sampleTx.encode.length = sampleTx.rlpLength) :=
  ⟨by decide, C9_unsigned_round_trip sampleTx (by decide)⟩

/-- C1: the sealed test transaction encodes to exactly the test-vector bytes
and decoding those bytes reproduces the same sealed value. -/
theorem C1_concrete_vector (keccak : List Nat → List Nat) :
    txEnvelopeEncode (TxEip2930.into_signed keccak testCallTx testSignature)
      = testVectorBytes ∧
    txEnvelopeDecode keccak testVectorBytes
      = .ok (TxEip2930.into_signed keccak testCallTx testSignature, []) := by
  constructor
  · have hirr : txEnvelopeEncode (TxEip2930.into_signed keccak testCallTx testSignature)
        = txEnvelopeEncode
            { tx := testCallTx, signature := testSignature.with_parity_bool,
              hash := [] } := rfl
    rw [hirr]
    decide
  · have hstep : txEnvelopeDecode keccak testVectorBytes
        = TxEip2930.decode_signed keccak (testVectorBytes.drop 3) := rfl
    have hfields : TxEip2930.decode_signed_fields (testVectorBytes.drop 3)
        = .ok ((testCallTx, testSignature), []) := by rfl
    rw [hstep]
    unfold TxEip2930.decode_signed
    rw [hfields]

/-- C8: `set_gas_price` stores the price exactly when it fits in 128 bits,
leaving every other field unchanged, and is a silent no-op otherwise. -/
theorem C8_set_gas_price (tx : TxEip2930) (price : Nat) :
    (price < 2 ^ 128 → tx.set_gas_price price = { tx with gas_price := price }) ∧
    (2 ^ 128 ≤ price → tx.set_gas_price price = tx) := by
  constructor
  · intro h
    unfold TxEip2930.set_gas_price u128TryFrom
    rw [if_pos h]
  · intro h
    unfold TxEip2930.set_gas_price u128TryFrom
    rw [if_neg (by omega)]

theorem C8_witness :
    ((5 : Nat) < 2 ^ 128 ∧
      sampleTx.set_gas_price 5 = { sampleTx with gas_price := 5 }) ∧
    (2 ^ 128 ≤ 2 ^ 200 ∧ sampleTx.set_gas_price (2 ^ 200) = sampleTx) :=
  ⟨⟨by norm_num, (C8_set_gas_price sampleTx 5).1 (by norm_num)⟩,
   ⟨by norm_num, (C8_set_gas_price sampleTx (2 ^ 200)).2 (by norm_num)⟩⟩

/-- C10: each setter stores exactly its argument in its own field and leaves
every other field unchanged, so the matching getter returns the value set. -/
theorem C10_setters_frame (tx : TxEip2930) (i : List Nat) (k : TxKind)
    (v c n l : Nat) :
    (tx.set_input i).inputGet = i ∧
    (tx.set_input i).chain_id = tx.chain_id ∧
    (tx.set_input i).nonce = tx.nonce ∧
    (tx.set_input i).gas_price = tx.gas_price ∧
    (tx.set_input i).gas_limit = tx.gas_limit ∧
    (tx.set_input i).recipient = tx.recipient ∧
    (tx.set_input i).value = tx.value ∧
    (tx.set_input i).access_list = tx.access_list ∧
    (tx.set_to k).toGet = k ∧
    (tx.set_to k).chain_id = tx.chain_id ∧
    (tx.set_to k).nonce = tx.nonce ∧
    (tx.set_to k).gas_price = tx.gas_price ∧
    (tx.set_to k).gas_limit = tx.gas_limit ∧
    (tx.set_to k).value = tx.value ∧
    (tx.set_to k).access_list = tx.access_list ∧
    (tx.set_to k).input = tx.input ∧
    (tx.set_value v).valueGet = v ∧
    (tx.set_value v).chain_id = tx.chain_id ∧
    (tx.set_value v).nonce = tx.nonce ∧
    (tx.set_value v).gas_price = tx.gas_price ∧
    (tx.set_value v).gas_limit = tx.gas_limit ∧
    (tx.set_value v).recipient = tx.recipient ∧
    (tx.set_value v).access_list = tx.access_list ∧
    (tx.set_value v).input = tx.input ∧
    (tx.set_chain_id c).chain_idGet = some c ∧
    (tx.set_chain_id c).nonce = tx.nonce ∧
    (tx.set_chain_id c).gas_price = tx.gas_price ∧
    (tx.set_chain_id c).gas_limit = tx.gas_limit ∧
    (tx.set_chain_id c).recipient = tx.recipient ∧
    (tx.set_chain_id c).value = tx.value ∧
    (tx.set_chain_id c).access_list = tx.access_list ∧
    (tx.set_chain_id c).input = tx.input ∧
    (tx.set_nonce n).nonceGet = n ∧
    (tx.set_nonce n).chain_id = tx.chain_id ∧
    (tx.set_nonce n).gas_price = tx.gas_price ∧
    (tx.set_nonce n).gas_limit = tx.gas_limit ∧
    (tx.set_nonce n).recipient = tx.recipient ∧
    (tx.set_nonce n).value = tx.value ∧
    (tx.set_nonce n).access_list = tx.access_list ∧
    (tx.set_nonce n).input = tx.input ∧
    (tx.set_gas_limit l).gas_limitGet = l ∧
    (tx.set_gas_limit l).chain_id = tx.chain_id ∧
    (tx.set_gas_limit l).nonce = tx.nonce ∧
    (tx.set_gas_limit l).gas_price = tx.gas_price ∧
    (tx.set_gas_limit l).recipient = tx.recipient ∧
    (tx.set_gas_limit l).value = tx.value ∧
    (tx.set_gas_limit l).access_list = tx.access_list ∧
    (tx.set_gas_limit l).input = tx.input :=
  ⟨rfl, rfl, rfl, rfl, rfl, rfl, rfl, rfl,
   rfl, rfl, rfl, rfl, rfl, rfl, rfl, rfl,
   rfl, rfl, rfl, rfl, rfl, rfl, rfl, rfl,
   rfl, rfl, rfl, rfl, rfl, rfl, rfl, rfl,
   rfl, rfl, rfl, rfl, rfl, rfl, rfl, rfl,
   rfl, rfl, rfl, rfl, rfl, rfl, rfl, rfl⟩

/-- The transaction decoded by the C5 counterexample buffer. -/
def stringHeaderTx : TxEip2930 :=
  { chain_id := 1, nonce := 0, gas_price := 1, gas_limit := 2,
    recipient := .create, value := 3, access_list := [], input := [] }

/-- C5 counterexample: a buffer whose header is a string header (`0x88`, not
a list header) is accepted by the unsigned `Decodable::decode`, which
therefore does not fail with `UnexpectedString` as the claim states. -/
theorem C5_counterexample :
    decodeHeader [0x88, 0x01, 0x80, 0x01, 0x02, 0x80, 0x03, 0x80, 0xc0]
      = .ok (false, 8, [0x01, 0x80, 0x01, 0x02, 0x80, 0x03, 0x80, 0xc0]) ∧
    TxEip2930.decode [0x88, 0x01, 0x80, 0x01, 0x02, 0x80, 0x03, 0x80, 0xc0]
      = .ok (stringHeaderTx, []) := by
  constructor
  · decide
  · rfl

/-- C5 amended: both decoders propagate header failures (including the
`InputTooShort` raised when the declared payload exceeds the remaining
buffer); `decode_signed` fails with `UnexpectedString` on a non-list header,
but the unsigned `Decodable::decode` performs no list check and proceeds to
the fields for either header kind. -/
theorem C5_header_checks (keccak : List Nat → List Nat) :
    (∀ buf e, decodeHeader buf = .error e →
      TxEip2930.decode_signed keccak buf = .error e ∧
        TxEip2930.decode buf = .error e) ∧
    (∀ buf p rest, decodeHeader buf = .ok (false, p, rest) →
      TxEip2930.decode_signed keccak buf = .error .UnexpectedString) ∧
    (∀ buf b p rest, decodeHeader buf = .ok (b, p, rest) →
      TxEip2930.decode buf = TxEip2930.decode_inner rest) ∧
    (∀ p rest, p < 56 → rest.length < p →
      decodeHeader ((0xc0 + p) :: rest) = .error .InputTooShort) := by
  refine ⟨?_, ?_, ?_, ?_⟩
  · intro buf e h
    constructor
    · unfold TxEip2930.decode_signed TxEip2930.decode_signed_fields
      rw [h, eb_error]
    · unfold TxEip2930.decode
      rw [h, eb_error]
  · intro buf p rest h
    unfold TxEip2930.decode_signed TxEip2930.decode_signed_fields
    rw [h, eb_ok]
    rfl
  · intro buf b p rest h
    unfold TxEip2930.decode
    rw [h, eb_ok]
    dsimp only
    rw [if_neg (by have := decodeHeader_ok_le h; omega)]
  · intro p rest hp hr
    show decodeHeader ((0xc0 + p) :: rest) = _
    simp only [decodeHeader]
    rw [if_neg (by omega : ¬0xc0 + p ≤ 0x7f), if_neg (by omega : ¬0xc0 + p ≤ 0xb7),
      if_neg (by omega : ¬0xc0 + p ≤ 0xbf), if_pos (by omega : 0xc0 + p ≤ 0xf7),
      show 0xc0 + p - 0xc0 = p from by omega]
    unfold headerCheckLen
    rw [if_pos hr]

theorem C5_header_checks_witness :
    (decodeHeader ([] : List Nat) = .error .InputTooShort) ∧
    (TxEip2930.decode_signed (fun _ => []) [] = .error .InputTooShort ∧
      TxEip2930.decode ([] : List Nat) = .error .InputTooShort) ∧
    (decodeHeader [0x80] = .ok (false, 0, []) ∧
      TxEip2930.decode_signed (fun _ => []) [0x80] = .error .UnexpectedString) ∧
    (decodeHeader [0xc0] = .ok (true, 0, []) ∧
      TxEip2930.decode [0xc0] = TxEip2930.decode_inner []) ∧
    ((2 : Nat) < 56 ∧ ([] : List Nat).length < 2 ∧
      decodeHeader [0xc0 + 2] = .error .InputTooShort) :=
  ⟨by decide,
   (C5_header_checks (fun _ => [])).1 [] .InputTooShort (by decide),
   ⟨by decide, (C5_header_checks (fun _ => [])).2.1 [0x80] 0 [] (by decide)⟩,
   ⟨by decide, (C5_header_checks (fun _ => [])).2.2.1 [0xc0] true 0 [] (by decide)⟩,
   ⟨by decide, by decide,
     (C5_header_checks (fun _ => [])).2.2.2 2 [] (by decide) (by decide)⟩⟩

/-- C6: the eight fields are encoded in the fixed order chain_id, nonce,
gas_price, gas_limit, recipient, value, input, access_list; the decoder reads
them back in the same order (the round-trip); and a decode failure is always
the failure of the first field whose decode fails, with no partial record
produced. -/
theorem C6_field_order_and_propagation (tx : TxEip2930) (h : tx.wf) :
    (tx.encode_fields
      = encodeUint tx.chain_id ++ encodeUint tx.nonce ++ encodeUint tx.gas_price ++
        encodeUint tx.gas_limit ++ tx.recipient.encodeRlp ++ encodeUint tx.value ++
        encodeBytes tx.input ++ encodeAccessList tx.access_list) ∧
    (∀ r, TxEip2930.decode_inner (tx.encode_fields ++ r) = .ok (tx, r)) ∧
    (∀ buf e, TxEip2930.decode_inner buf = .error e →
      decodeUint 8 buf = .error e ∨ ∃ c b1, decodeUint 8 buf = .ok (c, b1) ∧
        (decodeUint 8 b1 = .error e ∨ ∃ n b2, decodeUint 8 b1 = .ok (n, b2) ∧
          (decodeUint 16 b2 = .error e ∨ ∃ g b3, decodeUint 16 b2 = .ok (g, b3) ∧
            (decodeUint 8 b3 = .error e ∨ ∃ l b4, decodeUint 8 b3 = .ok (l, b4) ∧
              (TxKind.decodeRlp b4 = .error e ∨
                ∃ t b5, TxKind.decodeRlp b4 = .ok (t, b5) ∧
                (decodeUint 32 b5 = .error e ∨
                  ∃ v b6, decodeUint 32 b5 = .ok (v, b6) ∧
                  (decodeBytes b6 = .error e ∨
                    ∃ i b7, decodeBytes b6 = .ok (i, b7) ∧
                      decodeAccessList b7 = .error e))))))) := by
  refine ⟨rfl, fun r => TxEip2930.decode_inner_encode_fields tx r h, ?_⟩
  intro buf e hbuf
  unfold TxEip2930.decode_inner at hbuf
  cases h1 : decodeUint 8 buf with
  | error e1 =>
    rw [h1, eb_error] at hbuf
    cases hbuf
    exact Or.inl rfl
  | ok x1 =>
    obtain ⟨c, b1⟩ := x1
    rw [h1, eb_ok] at hbuf
    dsimp only at hbuf
    refine Or.inr ⟨c, b1, rfl, ?_⟩
    cases h2 : decodeUint 8 b1 with
    | error e2 =>
      rw [h2, eb_error] at hbuf
      cases hbuf
      exact Or.inl rfl
    | ok x2 =>
      obtain ⟨n, b2⟩ := x2
      rw [h2, eb_ok] at hbuf
      dsimp only at hbuf
      refine Or.inr ⟨n, b2, rfl, ?_⟩
      cases h3 : decodeUint 16 b2 with
      | error e3 =>
        rw [h3, eb_error] at hbuf
        cases hbuf
        exact Or.inl rfl
      | ok x3 =>
        obtain ⟨g, b3⟩ := x3
        rw [h3, eb_ok] at hbuf
        dsimp only at hbuf
        refine Or.inr ⟨g, b3, rfl, ?_⟩
        cases h4 : decodeUint 8 b3 with
        | error e4 =>
          rw [h4, eb_error] at hbuf
          cases hbuf
          exact Or.inl rfl
        | ok x4 =>
          obtain ⟨l, b4⟩ := x4
          rw [h4, eb_ok] at hbuf
          dsimp only at hbuf
          refine Or.inr ⟨l, b4, rfl, ?_⟩
          cases h5 : TxKind.decodeRlp b4 with
          | error e5 =>
            rw [h5, eb_error] at hbuf
            cases hbuf
            exact Or.inl rfl
          | ok x5 =>
            obtain ⟨t, b5⟩ := x5
            rw [h5, eb_ok] at hbuf
            dsimp only at hbuf
            refine Or.inr ⟨t, b5, rfl, ?_⟩
            cases h6 : decodeUint 32 b5 with
            | error e6 =>
              rw [h6, eb_error] at hbuf
              cases hbuf
              exact Or.inl rfl
            | ok x6 =>
              obtain ⟨v, b6⟩ := x6
              rw [h6, eb_ok] at hbuf
              dsimp only at hbuf
              refine Or.inr ⟨v, b6, rfl, ?_⟩
              cases h7 : decodeBytes b6 with
              | error e7 =>
                rw [h7, eb_error] at hbuf
                cases hbuf
                exact Or.inl rfl
              | ok x7 =>
                obtain ⟨i, b7⟩ := x7
                rw [h7, eb_ok] at hbuf
                dsimp only at hbuf
                refine Or.inr ⟨i, b7, rfl, ?_⟩
                cases h8 : decodeAccessList b7 with
                | error e8 =>
                  rw [h8, eb_error] at hbuf
                  cases hbuf
                  exact rfl
                | ok x8 =>
                  rw [h8, eb_ok] at hbuf
                  cases hbuf

theorem C6_witness :
    sampleTx.wf ∧
      TxEip2930.decode_inner (sampleTx.encode_fields ++ [0x7b])
        = .ok (sampleTx, [0x7b]) :=
  ⟨by decide,
    (C6_field_order_and_propagation sampleTx (by decide)).2.1 [0x7b]⟩
